import Mathlib

set_option maxRecDepth 100000
set_option maxHeartbeats 1000000

/-!
Verification of the two schema-patching scripts of the `ezcto` repository
(`fix_claude_schema.py`, the naive variant, and `fix_schema_final.py`, the
refined variant).

Both scripts read one file, apply a single `re.sub` to its content and
(conditionally, for the refined variant) write the result back.  The pure
text transform of each script is embedded here over `List Char`:

* naive pattern (`fix_claude_schema.py`, line 11):
  `(Please provide your analysis in the following JSON format:\n\{[\s\S]*?)"paydexBannerPrompt":.*?"\n\}\n\nRemember:`
* refined pattern (`fix_schema_final.py`, line 8):
  `(Please provide your analysis in the following JSON format:\n\{[\s\S]*?)"paydexBannerPrompt":[^\}]*\}\n\nRemember:`

Python `re.sub` semantics modelled: global replacement of all non-overlapping
leftmost matches; the lazy gap `[\s\S]*?` takes the shortest run reaching a
completion; `[^\}]*` admits no closing brace at all; `.*?` (no DOTALL flag)
is a lazy run of non-newline characters; `re.MULTILINE` (passed only by the
refined script) only affects `^`/`$`, which do not occur, so it is inert.
The replacement template is `\1` (the capture group: start anchor plus lazy
gap) followed by a fixed literal block.
-/

/-- Start anchor: the literal prefix of both patterns,
`Please provide your analysis in the following JSON format:\n{`. -/
def SA : List Char :=
  ("Please provide your analysis in the following JSON format:\n\x7b").data

/-- The literal `"paydexBannerPrompt":` that both patterns require after the
lazy gap. -/
def KEY : List Char := ("\"paydexBannerPrompt\":").data

/-- The literal `\n\nRemember:` tail shared by both end anchors. -/
def REM11 : List Char := ("\n\nRemember:").data

/-- End anchor of the refined pattern: `}\n\nRemember:`. -/
def END2 : List Char := '\x7d' :: REM11

/-- End anchor of the naive pattern: `"\n}\n\nRemember:`. -/
def END1 : List Char := '"' :: '\n' :: '\x7d' :: REM11

/-- The fixed replacement block of the naive script (`fix_claude_schema.py`,
lines 13-31), i.e. its `replacement` string with the `\1` backreference
stripped. -/
def replacementNaive : List Char :=
  ("\"paydexBannerPrompt\": \"Detailed prompt for 1500x500 PayDex banner\",\n  \"xBannerPrompt\": \"Detailed prompt for 1200x480 X/Twitter banner\",\n  \"logoPrompt\": \"Detailed prompt for 512x512 logo\",\n  \"heroBackgroundPrompt\": \"Detailed prompt for 1920x1080 hero background\",\n  \"featureIconPrompts\": [\"icon1 prompt\", \"icon2 prompt\", \"icon3 prompt\"],\n  \"communityScenePrompt\": \"Detailed prompt for 800x600 community scene\",\n  \"websiteContent\": \x7b\n    \"headline\": \"Catchy headline\",\n    \"tagline\": \"Memorable tagline\",\n    \"about\": \"Project description\",\n    \"features\": [\"Feature 1\", \"Feature 2\", \"Feature 3\"],\n    \"tokenomics\": \x7b\n      \"totalSupply\": \"Total supply\",\n      \"distribution\": \"Distribution\"\n    \x7d\n  \x7d\n\x7d\n\nRemember:").data

/-- The fixed replacement block of the refined script (`fix_schema_final.py`,
lines 11-37), i.e. its `replacement` string with the `\1` backreference
stripped. -/
def replacementFinal : List Char :=
  ("\"paydexBannerPrompt\": \"Detailed prompt for 1500x500 PayDex banner\",\n  \"xBannerPrompt\": \"Detailed prompt for 1200x480 X/Twitter banner\",\n  \"logoPrompt\": \"Detailed prompt for 512x512 logo\",\n  \"heroBackgroundPrompt\": \"Detailed prompt for 1920x1080 hero background\",\n  \"featureIconPrompts\": [\n    \"Detailed prompt for 256x256 feature icon 1\",\n    \"Detailed prompt for 256x256 feature icon 2\",\n    \"Detailed prompt for 256x256 feature icon 3\"\n  ],\n  \"communityScenePrompt\": \"Detailed prompt for 800x600 community scene\",\n  \"websiteContent\": \x7b\n    \"headline\": \"Catchy headline\",\n    \"tagline\": \"Memorable tagline\",\n    \"about\": \"Project description (2-3 sentences)\",\n    \"features\": [\n      \"Feature 1 description\",\n      \"Feature 2 description\",\n      \"Feature 3 description\"\n    ],\n    \"tokenomics\": \x7b\n      \"totalSupply\": \"Total supply info\",\n      \"distribution\": \"Distribution details\"\n    \x7d\n  \x7d\n\x7d\n\nRemember:").data

/-- Literal matcher: `litPre p s = some r` iff `s = p ++ r`.  Models matching
a literal fragment of the regex at the current position. -/
def litPre : List Char → List Char → Option (List Char)
  | [], s => some s
  | _ :: _, [] => none
  | p :: ps, c :: cs => if p = c then litPre ps cs else none

/-- `[^\}]*\}\n\nRemember:` of the refined pattern: consume the (greedy but
uniquely determined) run of non-`}` characters, then require the first `}`
to be immediately followed by `\n\nRemember:`.  Returns the remainder after
the end anchor. -/
def interiorFinal : List Char → Option (List Char)
  | [] => none
  | c :: rest => if c = '\x7d' then litPre REM11 rest else interiorFinal rest

/-- `.*?"\n\}\n\nRemember:` of the naive pattern: lazily look for the end
anchor `"\n}\n\nRemember:`, consuming only non-newline characters (`.` does
not match a newline: no DOTALL flag).  Returns the remainder after the end
anchor. -/
def interiorNaive : List Char → Option (List Char)
  | [] => none
  | c :: rest =>
    match litPre END1 (c :: rest) with
    | some r => some r
    | none => if c = '\n' then none else interiorNaive rest

/-- The part of the refined pattern after the capture group:
`"paydexBannerPrompt":[^\}]*\}\n\nRemember:` matched at the current
position; returns the remainder after the match. -/
def matchCompFinal (s : List Char) : Option (List Char) :=
  match litPre KEY s with
  | some t => interiorFinal t
  | none => none

/-- The part of the naive pattern after the capture group:
`"paydexBannerPrompt":.*?"\n\}\n\nRemember:` matched at the current
position; returns the remainder after the match. -/
def matchCompNaive (s : List Char) : Option (List Char) :=
  match litPre KEY s with
  | some t => interiorNaive t
  | none => none

/-- The lazy gap `[\s\S]*?` followed by the completion `m`: finds the
shortest prefix (the gap) after which `m` succeeds.  Returns the gap and
the remainder after the completion. -/
def findComp (m : List Char → Option (List Char)) : List Char → Option (List Char × List Char)
  | [] =>
    match m [] with
    | some r => some ([], r)
    | none => none
  | c :: rest =>
    match m (c :: rest) with
    | some r => some ([], r)
    | none =>
      match findComp m rest with
      | some (g, r) => some (c :: g, r)
      | none => none

/-- Anchored match of the whole pattern at the current position: the start
anchor, then the lazy gap, then the completion `m`.  Returns the capture
group `\1` (start anchor plus gap) and the remainder after the match. -/
def matchAt (m : List Char → Option (List Char)) (s : List Char) :
    Option (List Char × List Char) :=
  match litPre SA s with
  | some t =>
    match findComp m t with
    | some (g, r) => some (SA ++ g, r)
    | none => none
  | none => none

/-- Fuelled body of `re.sub`: scan left to right; at the leftmost position
where the anchored pattern matches, emit the capture group followed by the
replacement block, and continue after the match (global substitution).
The fuel only serves structural recursion; `subNaive`/`subFinal` supply
enough of it. -/
def subF (m : List Char → Option (List Char)) (blk : List Char) :
    Nat → List Char → List Char
  | 0, s => s
  | _ + 1, [] => []
  | f + 1, c :: rest =>
    match matchAt m (c :: rest) with
    | some (g, r) => g ++ blk ++ subF m blk f r
    | none => c :: subF m blk f rest

/-- The pure text transform of the naive script: `re.sub(pattern,
replacement, content)` of `fix_claude_schema.py`, line 33. -/
def subNaive (s : List Char) : List Char := subF matchCompNaive replacementNaive s.length s

/-- The pure text transform of the refined script: `re.sub(pattern,
replacement, content, flags=re.MULTILINE)` of `fix_schema_final.py`,
line 39. -/
def subFinal (s : List Char) : List Char := subF matchCompFinal replacementFinal s.length s

/-- Whether the pattern with completion `m` matches anywhere in `s`. -/
def hasMatchF (m : List Char → Option (List Char)) : List Char → Bool
  | [] => (matchAt m []).isSome
  | c :: rest => (matchAt m (c :: rest)).isSome || hasMatchF m rest

/-- Whether the naive pattern matches anywhere in `s`. -/
def hasMatchNaive (s : List Char) : Bool := hasMatchF matchCompNaive s

/-- Whether the refined pattern matches anywhere in `s`. -/
def hasMatchFinal (s : List Char) : Bool := hasMatchF matchCompFinal s

/-- Model of Python `content.find(p)`: index of the first occurrence of `p`
in `s` (`None` for `-1`). -/
def strFind (p : List Char) : List Char → Option Nat
  | [] => if (litPre p ([] : List Char)).isSome then some 0 else none
  | c :: rest =>
    if (litPre p (c :: rest)).isSome then some 0
    else
      match strFind p rest with
      | some i => some (i + 1)
      | none => none

/-- The debug marker `'Please provide your analysis'` of
`fix_schema_final.py`, line 44. -/
def marker : List Char := ("Please provide your analysis").data

/-- The refined script's failure diagnostic payload (lines 44-48): the
position of the marker and `content[start_idx:start_idx+500]`, when the
marker is present. -/
def snippet (c : List Char) : Option (Nat × List Char) :=
  match strFind marker c with
  | some i => some (i, (c.drop i).take 500)
  | none => none

/-- Terminal report of the refined script: success print, or the
pattern-not-found diagnostic (with its optional marker snippet). -/
inductive FinalOutcome where
  | success : FinalOutcome
  | patternNotFound : Option (Nat × List Char) → FinalOutcome
deriving DecidableEq

/-- One run of `fix_schema_final.py` on file content `c`: `written` is the
content written back (`none` when the write is skipped), `outcome` the
printed report. -/
structure FinalRun where
  written : Option (List Char)
  outcome : FinalOutcome
deriving DecidableEq

/-- Model of `fix_schema_final.py`, lines 39-52: substitute; if the result
equals the original content, skip the write and print the diagnostic,
otherwise write the new content and print success. -/
def runFinal (c : List Char) : FinalRun :=
  if subFinal c = c then ⟨none, .patternNotFound (snippet c)⟩
  else ⟨some (subFinal c), .success⟩

/-- Model of `fix_claude_schema.py`, lines 33-39: substitute, always write
the result back, always print the success message (`true`). -/
def runNaive (c : List Char) : List Char × Bool := (subNaive c, true)

/-- Boolean scan: the literal `p` occurs nowhere in `s` (checked at every
suffix).  Tail-recursive counterpart of `strFind … = none`. -/
def noPreAll (p : List Char) : List Char → Bool
  | [] => true
  | c :: rest => (litPre p (c :: rest)).isNone && noPreAll p rest

/-- Boolean scan: the literal `p` occurs somewhere in `s`. -/
def hasPre (p : List Char) : List Char → Bool
  | [] => (litPre p ([] : List Char)).isSome
  | c :: rest => (litPre p (c :: rest)).isSome || hasPre p rest

/-- Boolean scan asserting that the completion `m` fails at every offset
strictly inside `G` (each suffix of `G` is continued with `u`). -/
def noCompBefore (m : List Char → Option (List Char)) : List Char → List Char → Bool
  | [], _ => true
  | c :: rest, u => (m ((c :: rest) ++ u)).isNone && noCompBefore m rest u

/-- Concrete content containing both anchor phrases but whose interior
(`"a}b"`) conforms to neither pattern: the refined pattern forbids `}` in
the interior, and the naive pattern needs `"` directly before `\n}`. -/
def c1x : List Char := SA ++ KEY ++ (" \"a\x7db\"").data ++ END2 ++ (" x").data

/-- Two consecutive refined-pattern completions after a single start anchor:
the second completion survives the first pass and re-triggers the pattern on
the second pass. -/
def c4a : List Char := SA ++ KEY ++ (" \"a\"").data ++ END2 ++ KEY ++ (" \"b\"").data ++ END2

/-- Naive-pattern analogue of `c4a`. -/
def c4b : List Char := SA ++ KEY ++ (" \"a").data ++ END1 ++ KEY ++ (" \"b").data ++ END1

/-- Two complete, disjoint start-anchor→end-anchor spans (refined shape). -/
def c6a : List Char :=
  SA ++ KEY ++ (" \"a\"").data ++ END2 ++ SA ++ KEY ++ (" \"b\"").data ++ END2

/-- Two complete, disjoint start-anchor→end-anchor spans (naive shape). -/
def c6b : List Char :=
  SA ++ KEY ++ (" \"a").data ++ END1 ++ SA ++ KEY ++ (" \"b").data ++ END1

/-- The literal input file of claim C7 / spec testable property 4. -/
def c7 : List Char :=
  ("Please provide your analysis in the following JSON format:\n\x7b\n\"paydexBannerPrompt\": \"old text\"\n\x7d\n\nRemember: be concise").data

/-- Concrete content for C10: the interior after `"paydexBannerPrompt":`
holds a nested open brace and a stray closing brace (`... {"b": 1}`) before
the final `}` that precedes `\n\nRemember:`. -/
def c10w : List Char :=
  ("pre ").data ++ SA ++ ("\n").data ++ KEY ++ (" \"w\": \x7b\"b\": 1").data ++
    '\x7d' :: ((("\x7d\n").data ++ END2 ++ (" end").data))

/-- Content with no match whose marker diagnostic is exercised in C8. -/
def c8w : List Char := ("xx Please provide your analysis yy").data

/-! ### Basic lemmas about the literal matcher -/

theorem litPre_append (p r : List Char) : litPre p (p ++ r) = some r := by
  induction p with
  | nil => rfl
  | cons c ps ih => simp [litPre, ih]

theorem litPre_eq_some (p : List Char) : ∀ s r, litPre p s = some r → s = p ++ r := by
  induction p with
  | nil => intro s r h; simp [litPre] at h; simp [h]
  | cons c ps ih =>
    intro s r h
    cases s with
    | nil => simp [litPre] at h
    | cons d t =>
      simp only [litPre] at h
      split at h
      · rename_i hcd
        subst hcd
        simpa using ih t r h
      · simp at h

theorem litPre_length (p s r : List Char) (h : litPre p s = some r) :
    s.length = p.length + r.length := by
  have hs := litPre_eq_some p s r h
  subst hs
  simp [List.length_append]

theorem litPre_nil_of_ne (p : List Char) (hp : p ≠ []) : litPre p [] = none := by
  cases p with
  | nil => exact absurd rfl hp
  | cons c t => rfl

/-! ### Lemmas about the two interior matchers -/

theorem interiorFinal_spanOk (I B : List Char) (hI : '\x7d' ∉ I) :
    interiorFinal (I ++ (END2 ++ B)) = some B := by
  induction I with
  | nil => simpa [END2, interiorFinal] using litPre_append REM11 B
  | cons c I' ih =>
    have hc : c ≠ '\x7d' := by
      intro h; exact hI (by simp [h])
    have hI' : '\x7d' ∉ I' := fun h => hI (List.mem_cons_of_mem _ h)
    simpa [interiorFinal, hc] using ih hI'

theorem interiorFinal_spanFail (I u : List Char) (hI : '\x7d' ∉ I)
    (hu : litPre REM11 u = none) : interiorFinal (I ++ '\x7d' :: u) = none := by
  induction I with
  | nil => simpa [interiorFinal] using hu
  | cons c I' ih =>
    have hc : c ≠ '\x7d' := by
      intro h; exact hI (by simp [h])
    have hI' : '\x7d' ∉ I' := fun h => hI (List.mem_cons_of_mem _ h)
    simpa [interiorFinal, hc] using ih hI'

theorem interiorFinal_length (s : List Char) : ∀ r, interiorFinal s = some r →
    r.length < s.length := by
  induction s with
  | nil => intro r h; simp [interiorFinal] at h
  | cons c rest ih =>
    intro r h
    simp only [interiorFinal] at h
    split at h
    · have hl := litPre_length REM11 rest r h
      have h11 : REM11.length = 11 := by decide
      simp only [List.length_cons]
      omega
    · exact Nat.lt_trans (ih r h) (by simp)

theorem interiorNaive_cons (c : Char) (rest : List Char) :
    interiorNaive (c :: rest) =
      match litPre END1 (c :: rest) with
      | some r => some r
      | none => if c = '\n' then none else interiorNaive rest := rfl

theorem litPre_END1_inside (c : Char) (I' u : List Char)
    (hI' : ∀ d ∈ I', d ≠ '\n') :
    litPre END1 (c :: (I' ++ (END1 ++ u))) = none := by
  by_cases hc : ('"' : Char) = c
  · cases I' with
    | nil =>
      subst hc
      show litPre END1 ('"' :: (END1 ++ u)) = none
      simp [END1, litPre]
    | cons d I'' =>
      have hd : ¬ ('\n' = d) := fun h => hI' d (by simp) h.symm
      subst hc
      show litPre END1 ('"' :: ((d :: I'') ++ (END1 ++ u))) = none
      simp [END1, litPre, hd]
  · show litPre ('"' :: '\n' :: '\x7d' :: REM11) _ = none
    simp [litPre, hc]

theorem interiorNaive_spanOk (I B : List Char) (hI : ∀ c ∈ I, c ≠ '\n') :
    interiorNaive (I ++ (END1 ++ B)) = some B := by
  induction I with
  | nil =>
    show interiorNaive (END1 ++ B) = some B
    rw [show END1 ++ B = '"' :: (('\n' :: '\x7d' :: REM11) ++ B) from rfl,
        interiorNaive_cons]
    rw [show ('"' : Char) :: (('\n' :: '\x7d' :: REM11) ++ B) = END1 ++ B from rfl,
        litPre_append]
  | cons c I' ih =>
    have hc : c ≠ '\n' := hI c (by simp)
    have hI' : ∀ d ∈ I', d ≠ '\n' := fun d hd => hI d (by simp [hd])
    have hnone := litPre_END1_inside c I' B hI'
    show interiorNaive (c :: (I' ++ (END1 ++ B))) = some B
    rw [interiorNaive_cons, hnone]
    simp [hc, ih hI']

theorem interiorNaive_length (s : List Char) : ∀ r, interiorNaive s = some r →
    r.length < s.length := by
  induction s with
  | nil => intro r h; simp [interiorNaive] at h
  | cons c rest ih =>
    intro r h
    rw [interiorNaive_cons] at h
    cases hp : litPre END1 (c :: rest) with
    | some r' =>
      rw [hp] at h
      simp at h
      subst h
      have hl := litPre_length END1 (c :: rest) r' hp
      have h14 : END1.length = 14 := by decide
      simp only [List.length_cons] at hl ⊢
      omega
    | none =>
      rw [hp] at h
      change (if c = '\n' then none else interiorNaive rest) = some r at h
      by_cases hc : c = '\n'
      · rw [if_pos hc] at h; simp at h
      · rw [if_neg hc] at h
        exact Nat.lt_trans (ih r h) (by simp)

/-! ### Lemmas about the pattern completions -/

theorem matchCompFinal_span (I B : List Char) (hI : '\x7d' ∉ I) :
    matchCompFinal (KEY ++ (I ++ (END2 ++ B))) = some B := by
  unfold matchCompFinal
  rw [litPre_append]
  exact interiorFinal_spanOk I B hI

theorem matchCompNaive_span (I B : List Char) (hI : ∀ c ∈ I, c ≠ '\n') :
    matchCompNaive (KEY ++ (I ++ (END1 ++ B))) = some B := by
  unfold matchCompNaive
  rw [litPre_append]
  exact interiorNaive_spanOk I B hI

theorem matchCompFinal_noKEY (s : List Char) (h : litPre KEY s = none) :
    matchCompFinal s = none := by
  unfold matchCompFinal; rw [h]

theorem matchCompNaive_noKEY (s : List Char) (h : litPre KEY s = none) :
    matchCompNaive s = none := by
  unfold matchCompNaive; rw [h]

theorem matchCompFinal_consumes : ∀ s r, matchCompFinal s = some r → r.length < s.length := by
  intro s r h
  unfold matchCompFinal at h
  cases hp : litPre KEY s with
  | none => rw [hp] at h; simp at h
  | some t =>
    rw [hp] at h
    have h1 := interiorFinal_length t r h
    have h2 := litPre_length KEY s t hp
    have h3 : 0 < KEY.length := by decide
    omega

theorem matchCompNaive_consumes : ∀ s r, matchCompNaive s = some r → r.length < s.length := by
  intro s r h
  unfold matchCompNaive at h
  cases hp : litPre KEY s with
  | none => rw [hp] at h; simp at h
  | some t =>
    rw [hp] at h
    have h1 := interiorNaive_length t r h
    have h2 := litPre_length KEY s t hp
    have h3 : 0 < KEY.length := by decide
    omega

/-! ### Lemmas about the lazy-gap search -/

theorem findComp_here (m : List Char → Option (List Char)) (s r : List Char)
    (h : m s = some r) : findComp m s = some ([], r) := by
  cases s with
  | nil => simp only [findComp, h]
  | cons c rest => simp only [findComp, h]

theorem findComp_step (m : List Char → Option (List Char)) (c : Char) (rest : List Char)
    (h : m (c :: rest) = none) :
    findComp m (c :: rest) =
      match findComp m rest with
      | some (g, r) => some (c :: g, r)
      | none => none := by
  simp only [findComp, h]

theorem findComp_gap (m : List Char → Option (List Char)) (G u r : List Char)
    (hG : ∀ i < G.length, m ((G ++ u).drop i) = none)
    (hu : m u = some r) :
    findComp m (G ++ u) = some (G, r) := by
  induction G with
  | nil => simpa using findComp_here m u r hu
  | cons c G' ih =>
    have h0 : m (c :: (G' ++ u)) = none := by simpa using hG 0 (by simp)
    have ih' := ih (fun i hi => by
      simpa [List.drop_succ_cons] using hG (i + 1) (by simp; omega))
    rw [show (c :: G') ++ u = c :: (G' ++ u) from rfl, findComp_step m c (G' ++ u) h0, ih']

theorem findComp_fail (m : List Char → Option (List Char)) (t : List Char)
    (h : ∀ i, m (t.drop i) = none) : findComp m t = none := by
  induction t with
  | nil => unfold findComp; rw [show m [] = none from by simpa using h 0]
  | cons c rest ih =>
    rw [findComp_step m c rest (by simpa using h 0),
        ih (fun i => by simpa [List.drop_succ_cons] using h (i + 1))]

theorem findComp_length (m : List Char → Option (List Char))
    (hm : ∀ s r, m s = some r → r.length < s.length) :
    ∀ t g r, findComp m t = some (g, r) → r.length < t.length := by
  intro t
  induction t with
  | nil =>
    intro g r h
    unfold findComp at h
    cases hp : m [] with
    | none => rw [hp] at h; simp at h
    | some r' => exact absurd (hm [] r' hp) (by simp)
  | cons c rest ih =>
    intro g r h
    cases hp : m (c :: rest) with
    | some r' =>
      rw [findComp_here m _ r' hp] at h
      simp at h
      obtain ⟨hg, hr⟩ := h
      have h1 := hm _ r' hp
      have h2 : r'.length = r.length := by rw [hr]
      omega
    | none =>
      rw [findComp_step m c rest hp] at h
      cases hq : findComp m rest with
      | none => rw [hq] at h; simp at h
      | some p =>
        obtain ⟨g', r'⟩ := p
        rw [hq] at h
        simp at h
        obtain ⟨hg, hr⟩ := h
        have h1 := ih g' r' hq
        have h2 : r'.length = r.length := by rw [hr]
        simp only [List.length_cons]
        omega

/-! ### Lemmas about the anchored match -/

theorem SA_ne_nil : SA ≠ [] := by decide

theorem matchAt_intro (m : List Char → Option (List Char)) (t g r : List Char)
    (h : findComp m t = some (g, r)) :
    matchAt m (SA ++ t) = some (SA ++ g, r) := by
  simp only [matchAt, litPre_append, h]

theorem matchAt_noSA (m : List Char → Option (List Char)) (s : List Char)
    (h : litPre SA s = none) : matchAt m s = none := by
  simp only [matchAt, h]

theorem matchAt_noComp (m : List Char → Option (List Char)) (t : List Char)
    (h : findComp m t = none) : matchAt m (SA ++ t) = none := by
  simp only [matchAt, litPre_append, h]

theorem matchAt_nil (m : List Char → Option (List Char)) : matchAt m [] = none :=
  matchAt_noSA m [] (litPre_nil_of_ne SA SA_ne_nil)

theorem matchAt_length (m : List Char → Option (List Char))
    (hm : ∀ s r, m s = some r → r.length < s.length)
    (s g r : List Char) (h : matchAt m s = some (g, r)) : r.length < s.length := by
  cases hp : litPre SA s with
  | none => rw [matchAt_noSA m s hp] at h; simp at h
  | some t =>
    obtain rfl := litPre_eq_some SA s t hp
    cases hq : findComp m t with
    | none => rw [matchAt_noComp m t hq] at h; simp at h
    | some p =>
      obtain ⟨g', r'⟩ := p
      rw [matchAt_intro m t g' r' hq] at h
      simp at h
      obtain ⟨hg, hr⟩ := h
      have h1 := findComp_length m hm t g' r' hq
      have h2 : r'.length = r.length := by rw [hr]
      have h3 : 0 < SA.length := by decide
      simp only [List.length_append]
      omega

/-! ### Lemmas about the global substitution -/

theorem subF_zero (m : List Char → Option (List Char)) (blk s : List Char) :
    subF m blk 0 s = s := rfl

theorem subF_nil (m : List Char → Option (List Char)) (blk : List Char) (f : Nat) :
    subF m blk f [] = [] := by
  cases f <;> rfl

theorem subF_head (m : List Char → Option (List Char)) (blk : List Char) (f : Nat)
    (s g r : List Char) (h : matchAt m s = some (g, r)) :
    subF m blk (f + 1) s = g ++ blk ++ subF m blk f r := by
  cases s with
  | nil => rw [matchAt_nil m] at h; simp at h
  | cons c rest => simp only [subF, h]

theorem subF_skip1 (m : List Char → Option (List Char)) (blk : List Char) (f : Nat)
    (c : Char) (rest : List Char) (h : matchAt m (c :: rest) = none) :
    subF m blk (f + 1) (c :: rest) = c :: subF m blk f rest := by
  simp only [subF, h]

theorem subF_of_noMatch (m : List Char → Option (List Char)) (blk : List Char) :
    ∀ f s, hasMatchF m s = false → subF m blk f s = s := by
  intro f
  induction f with
  | zero => intro s _; rfl
  | succ f ih =>
    intro s hs
    cases s with
    | nil => exact subF_nil m blk _
    | cons c rest =>
      unfold hasMatchF at hs
      simp only [Bool.or_eq_false_iff] at hs
      obtain ⟨h1, h2⟩ := hs
      have h1' : matchAt m (c :: rest) = none := by
        cases hmm : matchAt m (c :: rest) with
        | none => rfl
        | some p => rw [hmm] at h1; simp at h1
      rw [subF_skip1 m blk f c rest h1', ih rest h2]

theorem subF_fuelIrrel (m : List Char → Option (List Char)) (blk : List Char)
    (hm : ∀ s r, m s = some r → r.length < s.length) :
    ∀ f1 f2 s, s.length ≤ f1 → s.length ≤ f2 →
      subF m blk f1 s = subF m blk f2 s := by
  intro f1
  induction f1 with
  | zero =>
    intro f2 s h1 _
    have hs : s = [] := List.length_eq_zero.mp (Nat.le_zero.mp h1)
    subst hs
    rw [subF_nil, subF_nil]
  | succ f ih =>
    intro f2 s h1 h2
    cases s with
    | nil => rw [subF_nil, subF_nil]
    | cons c rest =>
      cases f2 with
      | zero => simp at h2
      | succ f2' =>
        cases hmt : matchAt m (c :: rest) with
        | some p =>
          obtain ⟨g, r⟩ := p
          have hr := matchAt_length m hm (c :: rest) g r hmt
          rw [subF_head m blk f _ g r hmt, subF_head m blk f2' _ g r hmt,
              ih f2' r (by simp only [List.length_cons] at hr h1; omega)
                (by simp only [List.length_cons] at hr h2; omega)]
        | none =>
          rw [subF_skip1 m blk f c rest hmt, subF_skip1 m blk f2' c rest hmt,
              ih f2' rest (by simp only [List.length_cons] at h1; omega)
                (by simp only [List.length_cons] at h2; omega)]

theorem subF_skip (m : List Char → Option (List Char)) (blk : List Char) :
    ∀ (A t : List Char) (f : Nat),
      (∀ i < A.length, matchAt m ((A ++ t).drop i) = none) →
      subF m blk f (A ++ t) = A ++ subF m blk (f - A.length) t := by
  intro A
  induction A with
  | nil => intro t f _; simp
  | cons c A' ih =>
    intro t f h
    cases f with
    | zero =>
      rw [subF_zero]
      rw [show (0 : Nat) - (c :: A').length = 0 from by simp, subF_zero]
    | succ f' =>
      have h0 : matchAt m (c :: (A' ++ t)) = none := by simpa using h 0 (by simp)
      rw [show (c :: A') ++ t = c :: (A' ++ t) from rfl, subF_skip1 m blk f' c _ h0,
          ih t f' (fun i hi => by
            simpa [List.drop_succ_cons] using h (i + 1) (by simp; omega))]
      simp [Nat.succ_sub_succ]

theorem hasMatchF_false (m : List Char → Option (List Char)) :
    ∀ s, (∀ i, matchAt m (s.drop i) = none) → hasMatchF m s = false := by
  intro s
  induction s with
  | nil => unfold hasMatchF; intro h; rw [matchAt_nil]; rfl
  | cons c rest ih =>
    intro h
    unfold hasMatchF
    rw [show matchAt m (c :: rest) = none from by simpa using h 0,
        ih (fun i => by simpa [List.drop_succ_cons] using h (i + 1))]
    rfl

/-- The central step lemma: on content of the shape `A ++ SA ++ G ++ u`
where no match starts inside `A`, the completion fails at every offset
inside the gap `G` and succeeds exactly at the end of `G` leaving `B`, one
`re.sub` pass replaces the span and continues (globally) on `B`. -/
theorem sub_step (m : List Char → Option (List Char)) (blk : List Char)
    (hm : ∀ s r, m s = some r → r.length < s.length)
    (A G u B : List Char)
    (hA : ∀ i < A.length, matchAt m ((A ++ (SA ++ (G ++ u))).drop i) = none)
    (hG : ∀ i < G.length, m ((G ++ u).drop i) = none)
    (hu : m u = some B) :
    subF m blk (A ++ (SA ++ (G ++ u))).length (A ++ (SA ++ (G ++ u))) =
      A ++ (SA ++ (G ++ (blk ++ subF m blk B.length B))) := by
  have hfind : findComp m (G ++ u) = some (G, B) := findComp_gap m G u B hG hu
  have hmatch : matchAt m (SA ++ (G ++ u)) = some (SA ++ G, B) :=
    matchAt_intro m _ G B hfind
  rw [subF_skip m blk A (SA ++ (G ++ u)) _ hA]
  have hlen : (A ++ (SA ++ (G ++ u))).length - A.length = (SA ++ (G ++ u)).length := by
    simp [List.length_append]
  rw [hlen]
  obtain ⟨f, hf⟩ : ∃ f, (SA ++ (G ++ u)).length = f + 1 := by
    have hpos : 0 < SA.length := by decide
    exact ⟨(SA ++ (G ++ u)).length - 1, by simp [List.length_append]; omega⟩
  have hBf : B.length ≤ f := by
    have h1 := hm u B hu
    have h2 : (SA ++ (G ++ u)).length = SA.length + (G.length + u.length) := by
      simp [List.length_append]
    omega
  rw [hf, subF_head m blk f _ _ _ hmatch,
      subF_fuelIrrel m blk hm f B.length B hBf (Nat.le_refl _)]
  simp [List.append_assoc]

/-- Specialisation of `sub_step`: when the continuation `B` matches
nowhere, one `re.sub` pass replaces exactly the span and keeps everything
else byte-for-byte. -/
theorem sub_span (m : List Char → Option (List Char)) (blk : List Char)
    (hm : ∀ s r, m s = some r → r.length < s.length)
    (A G u B : List Char)
    (hA : ∀ i < A.length, matchAt m ((A ++ (SA ++ (G ++ u))).drop i) = none)
    (hG : ∀ i < G.length, m ((G ++ u).drop i) = none)
    (hu : m u = some B)
    (hB : hasMatchF m B = false) :
    subF m blk (A ++ (SA ++ (G ++ u))).length (A ++ (SA ++ (G ++ u))) =
      A ++ (SA ++ (G ++ (blk ++ B))) := by
  rw [sub_step m blk hm A G u B hA hG hu, subF_of_noMatch m blk B.length B hB]

theorem noCompBefore_spec (m : List Char → Option (List Char)) :
    ∀ G u, noCompBefore m G u = true →
      ∀ i < G.length, m ((G ++ u).drop i) = none := by
  intro G
  induction G with
  | nil => intro u _ i hi; simp at hi
  | cons c G' ih =>
    intro u h i hi
    unfold noCompBefore at h
    simp only [Bool.and_eq_true] at h
    obtain ⟨h1, h2⟩ := h
    cases i with
    | zero =>
      simp only [List.drop_zero]
      cases hmm : m ((c :: G') ++ u) with
      | none => rfl
      | some r => rw [hmm] at h1; simp at h1
    | succ i' =>
      have hi' : i' < G'.length := by simp at hi; omega
      simpa [List.drop_succ_cons] using ih u h2 i' hi'

/-! ### Remaining helper lemmas -/

theorem drop_append_add (X t : List Char) (j : Nat) :
    (X ++ t).drop (X.length + j) = t.drop j := by
  induction X with
  | nil => simp
  | cons c X' ih =>
    rw [show (c :: X').length + j = (X'.length + j) + 1 from by
          simp only [List.length_cons]; omega,
        show (c :: X') ++ t = c :: (X' ++ t) from rfl, List.drop_succ_cons, ih]

theorem matchCompFinal_nil : matchCompFinal [] = none := by decide

theorem strFind_eq_none_of_noPreAll (p : List Char) (hp : p ≠ []) :
    ∀ s, noPreAll p s = true → strFind p s = none := by
  intro s
  induction s with
  | nil =>
    intro _
    unfold strFind
    rw [litPre_nil_of_ne p hp]
    rfl
  | cons c rest ih =>
    intro h
    unfold noPreAll at h
    simp only [Bool.and_eq_true] at h
    obtain ⟨h1, h2⟩ := h
    unfold strFind
    cases hx : litPre p (c :: rest) with
    | some r => rw [hx] at h1; simp at h1
    | none => simp [ih h2]

theorem strFind_spec (p : List Char) :
    ∀ s i, strFind p s = some i →
      (litPre p (s.drop i)).isSome = true ∧ ∀ j, j < i → litPre p (s.drop j) = none := by
  intro s
  induction s with
  | nil =>
    intro i h
    unfold strFind at h
    split at h
    · rename_i hp
      simp at h
      subst h
      exact ⟨by simpa using hp, fun j hj => absurd hj (by omega)⟩
    · simp at h
  | cons c rest ih =>
    intro i h
    unfold strFind at h
    split at h
    · rename_i hp
      simp at h
      subst h
      exact ⟨by simpa using hp, fun j hj => absurd hj (by omega)⟩
    · rename_i hp
      cases hq : strFind p rest with
      | none => rw [hq] at h; simp at h
      | some i' =>
        rw [hq] at h
        simp at h
        subst h
        obtain ⟨h1, h2⟩ := ih i' hq
        constructor
        · simpa [List.drop_succ_cons] using h1
        · intro j hj
          cases j with
          | zero =>
            simp only [List.drop_zero]
            cases hl : litPre p (c :: rest) with
            | none => rfl
            | some r => rw [hl] at hp; simp at hp
          | succ j' =>
            have hj' : j' < i' := by omega
            simpa [List.drop_succ_cons] using h2 j' hj'

/-! ### Claim C1 -/

/-- Claim C1 (counterexample): a file content containing both the start
anchor and the end anchor `}\n\nRemember:` on which neither script's
`re.sub` produces the claimed
"prefix ++ replacement block ++ suffix" result: the interior `"a}b"`
contains a `}`, so the refined pattern cannot match it, and it has no `"`
directly before a `\n}`, so the naive pattern cannot match either; both
transforms leave the content unchanged. -/
theorem ezcto_C1_counterexample :
    (strFind SA c1x).isSome = true ∧ (strFind END2 c1x).isSome = true ∧
    subFinal c1x = c1x ∧ subNaive c1x = c1x ∧
    c1x ≠ SA ++ replacementFinal ++ (" x").data ∧
    c1x ≠ SA ++ replacementNaive ++ (" x").data := by
  refine ⟨by decide, by decide, by decide, by decide, by decide, by decide⟩

/-- Claim C1 (amended): for every file content of the shape
`pre ++ startAnchor ++ gap ++ "paydexBannerPrompt": ++ interior ++ endAnchor
++ post` in which no start anchor begins inside `pre`, the key literal does
not begin inside the gap, the interior conforms to the pattern (refined
script: no `}` at all; naive script: no newline, with the naive end anchor
`"\n}\n\nRemember:`), and `post` contains no further match, the `re.sub`
step yields exactly `pre ++ startAnchor ++ gap ++ replacement block ++
post`, the bytes outside the matched span unchanged. -/
theorem ezcto_C1_amended
    (A G I B A2 G2 I2 B2 : List Char)
    (hA : ∀ i < A.length, litPre SA ((A ++ SA ++ G ++ KEY ++ I ++ END2 ++ B).drop i) = none)
    (hG : ∀ i < G.length, litPre KEY ((G ++ KEY ++ I ++ END2 ++ B).drop i) = none)
    (hI : '\x7d' ∉ I)
    (hB : hasMatchFinal B = false)
    (hA2 : ∀ i < A2.length, litPre SA ((A2 ++ SA ++ G2 ++ KEY ++ I2 ++ END1 ++ B2).drop i) = none)
    (hG2 : ∀ i < G2.length, litPre KEY ((G2 ++ KEY ++ I2 ++ END1 ++ B2).drop i) = none)
    (hI2 : ∀ c ∈ I2, c ≠ '\n')
    (hB2 : hasMatchNaive B2 = false) :
    subFinal (A ++ SA ++ G ++ KEY ++ I ++ END2 ++ B) =
      A ++ SA ++ G ++ replacementFinal ++ B ∧
    subNaive (A2 ++ SA ++ G2 ++ KEY ++ I2 ++ END1 ++ B2) =
      A2 ++ SA ++ G2 ++ replacementNaive ++ B2 := by
  constructor
  · have h := sub_span matchCompFinal replacementFinal matchCompFinal_consumes A G
      (KEY ++ (I ++ (END2 ++ B))) B
      (fun i hi => matchAt_noSA _ _ (by simpa [List.append_assoc] using hA i hi))
      (fun i hi => matchCompFinal_noKEY _ (by simpa [List.append_assoc] using hG i hi))
      (matchCompFinal_span I B hI) hB
    simp only [subFinal]
    simp only [List.append_assoc] at h ⊢
    exact h
  · have h := sub_span matchCompNaive replacementNaive matchCompNaive_consumes A2 G2
      (KEY ++ (I2 ++ (END1 ++ B2))) B2
      (fun i hi => matchAt_noSA _ _ (by simpa [List.append_assoc] using hA2 i hi))
      (fun i hi => matchCompNaive_noKEY _ (by simpa [List.append_assoc] using hG2 i hi))
      (matchCompNaive_span I2 B2 hI2) hB2
    simp only [subNaive]
    simp only [List.append_assoc] at h ⊢
    exact h

/-- Witness for the amended C1 at concrete content. -/
theorem ezcto_C1_amended_witness :
    subFinal (("pre ").data ++ SA ++ ("\n").data ++ KEY ++ (" \"old\"").data ++ END2 ++ (" post").data) =
      ("pre ").data ++ SA ++ ("\n").data ++ replacementFinal ++ (" post").data ∧
    subNaive (("x").data ++ SA ++ ("\n").data ++ KEY ++ (" \"t").data ++ END1 ++ (" z").data) =
      ("x").data ++ SA ++ ("\n").data ++ replacementNaive ++ (" z").data :=
  ezcto_C1_amended _ _ _ _ _ _ _ _ (by decide) (by decide) (by decide) (by decide)
    (by decide) (by decide) (by decide) (by decide)

/-! ### Claim C2 -/

/-- Claim C2: on file content the refined pattern matches nowhere, the
refined script's substitution is the identity, the write-back is skipped
(`written = none`) and the pattern-not-found diagnostic is emitted. -/
theorem ezcto_C2 (c : List Char) (h : hasMatchFinal c = false) :
    (runFinal c).written = none ∧
    (runFinal c).outcome = FinalOutcome.patternNotFound (snippet c) ∧
    subFinal c = c := by
  have hid : subFinal c = c := subF_of_noMatch matchCompFinal replacementFinal c.length c h
  refine ⟨?_, ?_, hid⟩ <;> simp [runFinal, hid]

/-- Witness for C2 at concrete content without the anchors. -/
theorem ezcto_C2_witness :
    hasMatchFinal (("hello world").data) = false ∧
    (runFinal (("hello world").data)).written = none ∧
    (runFinal (("hello world").data)).outcome =
      FinalOutcome.patternNotFound (snippet (("hello world").data)) ∧
    subFinal (("hello world").data) = ("hello world").data :=
  ⟨by decide, ezcto_C2 (("hello world").data) (by decide)⟩

/-! ### Claim C3 -/

/-- Claim C3: on file content the naive pattern matches nowhere, the naive
script still performs the write — with content identical to what was read —
and still prints the success message (the `true` component; the write and
the print are unconditional in `fix_claude_schema.py`). -/
theorem ezcto_C3 (c : List Char) (h : hasMatchNaive c = false) :
    runNaive c = (c, true) := by
  have hid : subNaive c = c := subF_of_noMatch matchCompNaive replacementNaive c.length c h
  simp [runNaive, hid]

/-- Witness for C3 at concrete content without the anchors. -/
theorem ezcto_C3_witness :
    hasMatchNaive (("no pattern here").data) = false ∧
    runNaive (("no pattern here").data) = ((("no pattern here").data), true) :=
  ⟨by decide, ezcto_C3 (("no pattern here").data) (by decide)⟩

/-! ### Claim C4 -/

theorem subFinal_c4a_pass1 :
    subFinal c4a = SA ++ replacementFinal ++ (KEY ++ (" \"b\"").data ++ END2) := by
  have h := sub_span matchCompFinal replacementFinal matchCompFinal_consumes [] []
      (KEY ++ ((" \"a\"").data ++ (END2 ++ (KEY ++ ((" \"b\"").data ++ END2)))))
      (KEY ++ ((" \"b\"").data ++ END2))
      (fun i hi => by simp at hi)
      (fun i hi => by simp at hi)
      (matchCompFinal_span (" \"a\"").data (KEY ++ ((" \"b\"").data ++ END2)) (by decide))
      (by decide)
  simp only [subFinal]
  have hc : c4a =
      [] ++ (SA ++ ([] ++ (KEY ++ ((" \"a\"").data ++
        (END2 ++ (KEY ++ ((" \"b\"").data ++ END2))))))) := by
    simp [c4a, List.append_assoc]
  rw [hc, h]
  simp [List.append_assoc]

theorem subFinal_c4a_pass2 :
    subFinal (SA ++ replacementFinal ++ (KEY ++ (" \"b\"").data ++ END2)) =
      SA ++ replacementFinal ++ replacementFinal := by
  have hscan : noCompBefore matchCompFinal replacementFinal
      (KEY ++ ((" \"b\"").data ++ (END2 ++ []))) = true := by decide
  have h := sub_span matchCompFinal replacementFinal matchCompFinal_consumes []
      replacementFinal (KEY ++ ((" \"b\"").data ++ (END2 ++ []))) []
      (fun i hi => by simp at hi)
      (noCompBefore_spec matchCompFinal replacementFinal _ hscan)
      (matchCompFinal_span (" \"b\"").data [] (by decide))
      (by decide)
  simp only [subFinal]
  have hc : SA ++ replacementFinal ++ (KEY ++ (" \"b\"").data ++ END2) =
      [] ++ (SA ++ (replacementFinal ++ (KEY ++ ((" \"b\"").data ++ (END2 ++ []))))) := by
    simp [List.append_assoc]
  rw [hc, h]
  simp [List.append_assoc]

theorem subNaive_c4b_pass1 :
    subNaive c4b = SA ++ replacementNaive ++ (KEY ++ (" \"b").data ++ END1) := by
  have h := sub_span matchCompNaive replacementNaive matchCompNaive_consumes [] []
      (KEY ++ ((" \"a").data ++ (END1 ++ (KEY ++ ((" \"b").data ++ END1)))))
      (KEY ++ ((" \"b").data ++ END1))
      (fun i hi => by simp at hi)
      (fun i hi => by simp at hi)
      (matchCompNaive_span (" \"a").data (KEY ++ ((" \"b").data ++ END1)) (by decide))
      (by decide)
  simp only [subNaive]
  have hc : c4b =
      [] ++ (SA ++ ([] ++ (KEY ++ ((" \"a").data ++
        (END1 ++ (KEY ++ ((" \"b").data ++ END1))))))) := by
    simp [c4b, List.append_assoc]
  rw [hc, h]
  simp [List.append_assoc]

theorem subNaive_c4b_pass2 :
    subNaive (SA ++ replacementNaive ++ (KEY ++ (" \"b").data ++ END1)) =
      SA ++ replacementNaive ++ replacementNaive := by
  have hscan : noCompBefore matchCompNaive replacementNaive
      (KEY ++ ((" \"b").data ++ (END1 ++ []))) = true := by decide
  have h := sub_span matchCompNaive replacementNaive matchCompNaive_consumes []
      replacementNaive (KEY ++ ((" \"b").data ++ (END1 ++ []))) []
      (fun i hi => by simp at hi)
      (noCompBefore_spec matchCompNaive replacementNaive _ hscan)
      (matchCompNaive_span (" \"b").data [] (by decide))
      (by decide)
  simp only [subNaive]
  have hc : SA ++ replacementNaive ++ (KEY ++ (" \"b").data ++ END1) =
      [] ++ (SA ++ (replacementNaive ++ (KEY ++ ((" \"b").data ++ (END1 ++ []))))) := by
    simp [List.append_assoc]
  rw [hc, h]
  simp [List.append_assoc]

/-- Claim C4 (counterexample): neither replacement block contains the start
anchor (so the claim's proviso holds — the block contains no
start-anchor→end-anchor span), yet applying either transform twice differs
from applying it once: on content with a second completion after the first
span, the first pass consumes only the first completion, and on the second
pass the lazy gap extends across the inserted block to the surviving second
completion. -/
theorem ezcto_C4_counterexample :
    strFind SA replacementFinal = none ∧ strFind SA replacementNaive = none ∧
    subFinal (subFinal c4a) ≠ subFinal c4a ∧
    subNaive (subNaive c4b) ≠ subNaive c4b := by
  refine ⟨strFind_eq_none_of_noPreAll SA SA_ne_nil replacementFinal (by decide),
    strFind_eq_none_of_noPreAll SA SA_ne_nil replacementNaive (by decide), ?_, ?_⟩
  · rw [subFinal_c4a_pass1, subFinal_c4a_pass2]
    intro hEq
    have h1 : replacementFinal = KEY ++ (" \"b\"").data ++ END2 :=
      List.append_cancel_left hEq
    have h2 : replacementFinal ≠ KEY ++ (" \"b\"").data ++ END2 := by decide
    exact h2 h1
  · rw [subNaive_c4b_pass1, subNaive_c4b_pass2]
    intro hEq
    have h1 : replacementNaive = KEY ++ (" \"b").data ++ END1 :=
      List.append_cancel_left hEq
    have h2 : replacementNaive ≠ KEY ++ (" \"b").data ++ END1 := by decide
    exact h2 h1

/-- Claim C4 (amended): applying the transform twice equals applying it
once provided the once-transformed output matches the pattern nowhere (the
claim's proviso about the replacement block alone is not sufficient). -/
theorem ezcto_C4_amended (c c2 : List Char)
    (h : hasMatchFinal (subFinal c) = false) (h2 : hasMatchNaive (subNaive c2) = false) :
    subFinal (subFinal c) = subFinal c ∧ subNaive (subNaive c2) = subNaive c2 :=
  ⟨subF_of_noMatch _ _ _ _ h, subF_of_noMatch _ _ _ _ h2⟩

theorem subFinal_single :
    subFinal (SA ++ KEY ++ (" \"a\"").data ++ END2) = SA ++ replacementFinal := by
  have h := sub_span matchCompFinal replacementFinal matchCompFinal_consumes [] []
      (KEY ++ ((" \"a\"").data ++ (END2 ++ []))) []
      (fun i hi => by simp at hi)
      (fun i hi => by simp at hi)
      (matchCompFinal_span (" \"a\"").data [] (by decide))
      (by decide)
  simp only [subFinal]
  have hc : SA ++ KEY ++ (" \"a\"").data ++ END2 =
      [] ++ (SA ++ ([] ++ (KEY ++ ((" \"a\"").data ++ (END2 ++ []))))) := by
    simp [List.append_assoc]
  rw [hc, h]
  simp [List.append_assoc]

theorem subNaive_single :
    subNaive (SA ++ KEY ++ (" \"a").data ++ END1) = SA ++ replacementNaive := by
  have h := sub_span matchCompNaive replacementNaive matchCompNaive_consumes [] []
      (KEY ++ ((" \"a").data ++ (END1 ++ []))) []
      (fun i hi => by simp at hi)
      (fun i hi => by simp at hi)
      (matchCompNaive_span (" \"a").data [] (by decide))
      (by decide)
  simp only [subNaive]
  have hc : SA ++ KEY ++ (" \"a").data ++ END1 =
      [] ++ (SA ++ ([] ++ (KEY ++ ((" \"a").data ++ (END1 ++ []))))) := by
    simp [List.append_assoc]
  rw [hc, h]
  simp [List.append_assoc]

/-- Witness for the amended C4 at concrete single-span content. -/
theorem ezcto_C4_amended_witness :
    hasMatchFinal (subFinal (SA ++ KEY ++ (" \"a\"").data ++ END2)) = false ∧
    hasMatchNaive (subNaive (SA ++ KEY ++ (" \"a").data ++ END1)) = false ∧
    (subFinal (subFinal (SA ++ KEY ++ (" \"a\"").data ++ END2)) =
        subFinal (SA ++ KEY ++ (" \"a\"").data ++ END2) ∧
      subNaive (subNaive (SA ++ KEY ++ (" \"a").data ++ END1)) =
        subNaive (SA ++ KEY ++ (" \"a").data ++ END1)) :=
  ⟨by rw [subFinal_single]; decide, by rw [subNaive_single]; decide,
    ezcto_C4_amended _ _ (by rw [subFinal_single]; decide)
      (by rw [subNaive_single]; decide)⟩

/-! ### Claim C5 -/

/-- Claim C5: the match is minimal (lazy/non-greedy boundary policy).  When
the gap holds no key literal and the interior conforms to the pattern, the
anchored match of either pattern ends exactly at the first qualifying end
anchor: the remainder is exactly `B`, whatever `B` contains — in particular
when `B` holds later candidate end anchors the match never spans past the
first one. -/
theorem ezcto_C5 (G I B G2 I2 B2 : List Char)
    (hG : ∀ i < G.length, litPre KEY ((G ++ KEY ++ I ++ END2 ++ B).drop i) = none)
    (hI : '\x7d' ∉ I)
    (hG2 : ∀ i < G2.length, litPre KEY ((G2 ++ KEY ++ I2 ++ END1 ++ B2).drop i) = none)
    (hI2 : ∀ c ∈ I2, c ≠ '\n') :
    matchAt matchCompFinal (SA ++ G ++ KEY ++ I ++ END2 ++ B) = some (SA ++ G, B) ∧
    matchAt matchCompNaive (SA ++ G2 ++ KEY ++ I2 ++ END1 ++ B2) = some (SA ++ G2, B2) := by
  constructor
  · have h := matchAt_intro matchCompFinal (G ++ (KEY ++ (I ++ (END2 ++ B)))) G B
      (findComp_gap matchCompFinal G (KEY ++ (I ++ (END2 ++ B))) B
        (fun i hi => matchCompFinal_noKEY _ (by simpa [List.append_assoc] using hG i hi))
        (matchCompFinal_span I B hI))
    simpa [List.append_assoc] using h
  · have h := matchAt_intro matchCompNaive (G2 ++ (KEY ++ (I2 ++ (END1 ++ B2)))) G2 B2
      (findComp_gap matchCompNaive G2 (KEY ++ (I2 ++ (END1 ++ B2))) B2
        (fun i hi => matchCompNaive_noKEY _ (by simpa [List.append_assoc] using hG2 i hi))
        (matchCompNaive_span I2 B2 hI2))
    simpa [List.append_assoc] using h

/-- Witness for C5: the continuation after the first end anchor itself
contains another end anchor, and the match still stops at the first. -/
theorem ezcto_C5_witness :
    matchAt matchCompFinal
        (SA ++ ("\n").data ++ KEY ++ (" \"v\"").data ++ END2 ++ (("later").data ++ END2)) =
      some (SA ++ ("\n").data, ("later").data ++ END2) ∧
    matchAt matchCompNaive
        (SA ++ ("\n").data ++ KEY ++ (" \"v").data ++ END1 ++ (("later").data ++ END1)) =
      some (SA ++ ("\n").data, ("later").data ++ END1) :=
  ezcto_C5 _ _ _ _ _ _ (by decide) (by decide) (by decide) (by decide)

/-! ### Claim C6 -/

theorem subFinal_c6a_eq :
    subFinal c6a = SA ++ replacementFinal ++ (SA ++ replacementFinal) := by
  have hspan2 := sub_span matchCompFinal replacementFinal matchCompFinal_consumes [] []
      (KEY ++ ((" \"b\"").data ++ (END2 ++ []))) []
      (fun i hi => by simp at hi)
      (fun i hi => by simp at hi)
      (matchCompFinal_span (" \"b\"").data [] (by decide))
      (by decide)
  have hstep := sub_step matchCompFinal replacementFinal matchCompFinal_consumes [] []
      (KEY ++ ((" \"a\"").data ++ (END2 ++ (SA ++ (KEY ++ ((" \"b\"").data ++ END2))))))
      (SA ++ (KEY ++ ((" \"b\"").data ++ END2)))
      (fun i hi => by simp at hi)
      (fun i hi => by simp at hi)
      (matchCompFinal_span (" \"a\"").data (SA ++ (KEY ++ ((" \"b\"").data ++ END2)))
        (by decide))
  simp only [subFinal]
  have hc : c6a =
      [] ++ (SA ++ ([] ++ (KEY ++ ((" \"a\"").data ++
        (END2 ++ (SA ++ (KEY ++ ((" \"b\"").data ++ END2)))))))) := by
    simp [c6a, List.append_assoc]
  rw [hc, hstep]
  have hc2 : SA ++ (KEY ++ ((" \"b\"").data ++ END2)) =
      [] ++ (SA ++ ([] ++ (KEY ++ ((" \"b\"").data ++ (END2 ++ []))))) := by
    simp [List.append_assoc]
  rw [hc2, hspan2]
  simp [List.append_assoc]

theorem subNaive_c6b_eq :
    subNaive c6b = SA ++ replacementNaive ++ (SA ++ replacementNaive) := by
  have hspan2 := sub_span matchCompNaive replacementNaive matchCompNaive_consumes [] []
      (KEY ++ ((" \"b").data ++ (END1 ++ []))) []
      (fun i hi => by simp at hi)
      (fun i hi => by simp at hi)
      (matchCompNaive_span (" \"b").data [] (by decide))
      (by decide)
  have hstep := sub_step matchCompNaive replacementNaive matchCompNaive_consumes [] []
      (KEY ++ ((" \"a").data ++ (END1 ++ (SA ++ (KEY ++ ((" \"b").data ++ END1))))))
      (SA ++ (KEY ++ ((" \"b").data ++ END1)))
      (fun i hi => by simp at hi)
      (fun i hi => by simp at hi)
      (matchCompNaive_span (" \"a").data (SA ++ (KEY ++ ((" \"b").data ++ END1)))
        (by decide))
  simp only [subNaive]
  have hc : c6b =
      [] ++ (SA ++ ([] ++ (KEY ++ ((" \"a").data ++
        (END1 ++ (SA ++ (KEY ++ ((" \"b").data ++ END1)))))))) := by
    simp [c6b, List.append_assoc]
  rw [hc, hstep]
  have hc2 : SA ++ (KEY ++ ((" \"b").data ++ END1)) =
      [] ++ (SA ++ ([] ++ (KEY ++ ((" \"b").data ++ (END1 ++ []))))) := by
    simp [List.append_assoc]
  rw [hc2, hspan2]
  simp [List.append_assoc]

/-- Claim C6 (counterexample): on content made of two disjoint
start-anchor→end-anchor spans, the output is not "first span replaced,
second occurrence left unchanged": `re.sub` replaces the second one too. -/
theorem ezcto_C6_counterexample :
    subFinal c6a ≠ SA ++ replacementFinal ++ (SA ++ KEY ++ (" \"b\"").data ++ END2) := by
  rw [subFinal_c6a_eq]
  intro hEq
  have h1 : SA ++ replacementFinal = SA ++ KEY ++ (" \"b\"").data ++ END2 :=
    List.append_cancel_left hEq
  have h2 : SA ++ replacementFinal ≠ SA ++ KEY ++ (" \"b\"").data ++ END2 := by decide
  exact h2 h1

/-- Claim C6 (amended): the first replaced region does begin at the first
start-anchor occurrence, but `re.sub` is global: for every content made of
two disjoint start-anchor→end-anchor spans (under the same
decomposition-pinning conditions as the amended C1 — anchors and key only
at their intended places, pattern-conforming interiors, no further match
after the second span), the occurrence after the first is replaced as well,
not left unchanged. -/
theorem ezcto_C6_amended
    (A G I A2 G2 I2 B A3 G3 I3 A4 G4 I4 B2 : List Char)
    (hA : ∀ i < A.length, litPre SA
      ((A ++ SA ++ G ++ KEY ++ I ++ END2 ++ A2 ++ SA ++ G2 ++ KEY ++ I2 ++ END2 ++ B).drop i) = none)
    (hG : ∀ i < G.length, litPre KEY
      ((G ++ KEY ++ I ++ END2 ++ A2 ++ SA ++ G2 ++ KEY ++ I2 ++ END2 ++ B).drop i) = none)
    (hI : '\x7d' ∉ I)
    (hA2 : ∀ i < A2.length, litPre SA
      ((A2 ++ SA ++ G2 ++ KEY ++ I2 ++ END2 ++ B).drop i) = none)
    (hG2 : ∀ i < G2.length, litPre KEY ((G2 ++ KEY ++ I2 ++ END2 ++ B).drop i) = none)
    (hI2 : '\x7d' ∉ I2)
    (hB : hasMatchFinal B = false)
    (hA3 : ∀ i < A3.length, litPre SA
      ((A3 ++ SA ++ G3 ++ KEY ++ I3 ++ END1 ++ A4 ++ SA ++ G4 ++ KEY ++ I4 ++ END1 ++ B2).drop i) = none)
    (hG3 : ∀ i < G3.length, litPre KEY
      ((G3 ++ KEY ++ I3 ++ END1 ++ A4 ++ SA ++ G4 ++ KEY ++ I4 ++ END1 ++ B2).drop i) = none)
    (hI3 : ∀ c ∈ I3, c ≠ '\n')
    (hA4 : ∀ i < A4.length, litPre SA
      ((A4 ++ SA ++ G4 ++ KEY ++ I4 ++ END1 ++ B2).drop i) = none)
    (hG4 : ∀ i < G4.length, litPre KEY ((G4 ++ KEY ++ I4 ++ END1 ++ B2).drop i) = none)
    (hI4 : ∀ c ∈ I4, c ≠ '\n')
    (hB2 : hasMatchNaive B2 = false) :
    subFinal (A ++ SA ++ G ++ KEY ++ I ++ END2 ++ A2 ++ SA ++ G2 ++ KEY ++ I2 ++ END2 ++ B) =
      A ++ SA ++ G ++ replacementFinal ++ A2 ++ SA ++ G2 ++ replacementFinal ++ B ∧
    subNaive (A3 ++ SA ++ G3 ++ KEY ++ I3 ++ END1 ++ A4 ++ SA ++ G4 ++ KEY ++ I4 ++ END1 ++ B2) =
      A3 ++ SA ++ G3 ++ replacementNaive ++ A4 ++ SA ++ G4 ++ replacementNaive ++ B2 := by
  constructor
  · have h2 := sub_span matchCompFinal replacementFinal matchCompFinal_consumes A2 G2
      (KEY ++ (I2 ++ (END2 ++ B))) B
      (fun i hi => matchAt_noSA _ _ (by simpa [List.append_assoc] using hA2 i hi))
      (fun i hi => matchCompFinal_noKEY _ (by simpa [List.append_assoc] using hG2 i hi))
      (matchCompFinal_span I2 B hI2) hB
    have h1 := sub_step matchCompFinal replacementFinal matchCompFinal_consumes A G
      (KEY ++ (I ++ (END2 ++ (A2 ++ (SA ++ (G2 ++ (KEY ++ (I2 ++ (END2 ++ B)))))))))
      (A2 ++ (SA ++ (G2 ++ (KEY ++ (I2 ++ (END2 ++ B))))))
      (fun i hi => matchAt_noSA _ _ (by simpa [List.append_assoc] using hA i hi))
      (fun i hi => matchCompFinal_noKEY _ (by simpa [List.append_assoc] using hG i hi))
      (matchCompFinal_span I (A2 ++ (SA ++ (G2 ++ (KEY ++ (I2 ++ (END2 ++ B)))))) hI)
    rw [h2] at h1
    simp only [subFinal]
    simp only [List.append_assoc] at h1 ⊢
    exact h1
  · have h2 := sub_span matchCompNaive replacementNaive matchCompNaive_consumes A4 G4
      (KEY ++ (I4 ++ (END1 ++ B2))) B2
      (fun i hi => matchAt_noSA _ _ (by simpa [List.append_assoc] using hA4 i hi))
      (fun i hi => matchCompNaive_noKEY _ (by simpa [List.append_assoc] using hG4 i hi))
      (matchCompNaive_span I4 B2 hI4) hB2
    have h1 := sub_step matchCompNaive replacementNaive matchCompNaive_consumes A3 G3
      (KEY ++ (I3 ++ (END1 ++ (A4 ++ (SA ++ (G4 ++ (KEY ++ (I4 ++ (END1 ++ B2)))))))))
      (A4 ++ (SA ++ (G4 ++ (KEY ++ (I4 ++ (END1 ++ B2))))))
      (fun i hi => matchAt_noSA _ _ (by simpa [List.append_assoc] using hA3 i hi))
      (fun i hi => matchCompNaive_noKEY _ (by simpa [List.append_assoc] using hG3 i hi))
      (matchCompNaive_span I3 (A4 ++ (SA ++ (G4 ++ (KEY ++ (I4 ++ (END1 ++ B2)))))) hI3)
    rw [h2] at h1
    simp only [subNaive]
    simp only [List.append_assoc] at h1 ⊢
    exact h1

/-- Witness for the amended C6: two disjoint spans with nonempty
surroundings, both replaced, under both scripts. -/
theorem ezcto_C6_amended_witness :
    subFinal (("x ").data ++ SA ++ ("\n").data ++ KEY ++ (" \"a\"").data ++ END2 ++
        (" mid ").data ++ SA ++ ("\n").data ++ KEY ++ (" \"b\"").data ++ END2 ++ (" end").data) =
      ("x ").data ++ SA ++ ("\n").data ++ replacementFinal ++ (" mid ").data ++ SA ++
        ("\n").data ++ replacementFinal ++ (" end").data ∧
    subNaive (("x ").data ++ SA ++ ("\n").data ++ KEY ++ (" \"a").data ++ END1 ++
        (" mid ").data ++ SA ++ ("\n").data ++ KEY ++ (" \"b").data ++ END1 ++ (" end").data) =
      ("x ").data ++ SA ++ ("\n").data ++ replacementNaive ++ (" mid ").data ++ SA ++
        ("\n").data ++ replacementNaive ++ (" end").data :=
  ezcto_C6_amended _ _ _ _ _ _ _ _ _ _ _ _ _ _ (by decide) (by decide) (by decide)
    (by decide) (by decide) (by decide) (by decide) (by decide) (by decide) (by decide)
    (by decide) (by decide) (by decide) (by decide)

/-! ### Claim C7 -/

/-- Claim C7: on the literal input file of the spec, both scripts produce
the start anchor, the captured gap `\n`, then exactly the fixed replacement
block (whose tail is `}\n\nRemember:`), and the trailing ` be concise` is
preserved verbatim; both replacement blocks contain the six advertised
keys. -/
theorem ezcto_C7 :
    subFinal c7 = SA ++ ("\n").data ++ replacementFinal ++ (" be concise").data ∧
    subNaive c7 = SA ++ ("\n").data ++ replacementNaive ++ (" be concise").data ∧
    ([("\"xBannerPrompt\"").data, ("\"logoPrompt\"").data,
        ("\"heroBackgroundPrompt\"").data, ("\"featureIconPrompts\"").data,
        ("\"communityScenePrompt\"").data, ("\"websiteContent\"").data].all
      (fun k => hasPre k replacementFinal)) = true ∧
    ([("\"xBannerPrompt\"").data, ("\"logoPrompt\"").data,
        ("\"heroBackgroundPrompt\"").data, ("\"featureIconPrompts\"").data,
        ("\"communityScenePrompt\"").data, ("\"websiteContent\"").data].all
      (fun k => hasPre k replacementNaive)) = true := by
  refine ⟨by decide, by decide, by decide, by decide⟩

/-! ### Claim C8 -/

/-- Claim C8: on the failure path, when the marker
`'Please provide your analysis'` occurs, the refined script's diagnostic
reports the position of its first occurrence and exactly
`content[start_idx : start_idx + 500]` — a snippet of at most 500
characters starting at that first occurrence. -/
theorem ezcto_C8 (c : List Char) (i : Nat)
    (hno : subFinal c = c) (hfind : strFind marker c = some i) :
    (runFinal c).outcome = FinalOutcome.patternNotFound (some (i, (c.drop i).take 500)) ∧
    (litPre marker (c.drop i)).isSome = true ∧
    (∀ j, j < i → litPre marker (c.drop j) = none) ∧
    ((c.drop i).take 500).length ≤ 500 := by
  obtain ⟨h1, h2⟩ := strFind_spec marker c i hfind
  refine ⟨?_, h1, h2, ?_⟩
  · simp [runFinal, hno, snippet, hfind]
  · rw [List.length_take]
    exact min_le_left _ _

/-- Witness for C8 at concrete unmatched content with the marker at 3. -/
theorem ezcto_C8_witness :
    subFinal c8w = c8w ∧ strFind marker c8w = some 3 ∧
    (runFinal c8w).outcome =
      FinalOutcome.patternNotFound (some (3, (c8w.drop 3).take 500)) :=
  ⟨by decide, by decide, (ezcto_C8 c8w 3 (by decide) (by decide)).1⟩

/-! ### Claim C9 -/

/-- Claim C9: in the refined script the write-back happens exactly when
`re.sub` changed the content, and whenever the substitution leaves the
content unchanged — for whatever reason — the script reports the
pattern-not-found diagnostic: failure detection is content inequality, not
match success. -/
theorem ezcto_C9 (c : List Char) :
    ((runFinal c).written = some (subFinal c) ↔ subFinal c ≠ c) ∧
    (subFinal c = c → (runFinal c).outcome = FinalOutcome.patternNotFound (snippet c)) := by
  by_cases h : subFinal c = c
  · refine ⟨⟨fun hw => ?_, fun hne => absurd h hne⟩, fun _ => by simp [runFinal, h]⟩
    simp [runFinal, h] at hw
  · exact ⟨⟨fun _ => h, fun _ => by simp [runFinal, h]⟩, fun hc => absurd hc h⟩

/-- Witness for C9 at concrete unmatched content. -/
theorem ezcto_C9_witness :
    (runFinal (("plain file").data)).outcome =
      FinalOutcome.patternNotFound (snippet (("plain file").data)) :=
  (ezcto_C9 (("plain file").data)).2 (by decide)

/-! ### Claim C10 -/

/-- Claim C10: the refined pattern's `[^\}]*` admits no `}` in the
interior.  On content whose interior after `"paydexBannerPrompt":` holds a
stray `}` whose continuation is not `\n\nRemember:` (and whose anchors and
key occur only at their intended places), the refined pattern matches
nowhere, the file is left unchanged, the write is skipped and the failure
diagnostic is reported. -/
theorem ezcto_C10 (A G I1 I2 B c : List Char)
    (hc : c = A ++ SA ++ G ++ KEY ++ I1 ++ '\x7d' :: (I2 ++ END2 ++ B))
    (hSA : ∀ i, i < c.length → i ≠ A.length → litPre SA (c.drop i) = none)
    (hKEY : ∀ i, i < c.length → i ≠ A.length + SA.length + G.length →
      litPre KEY (c.drop i) = none)
    (hI1 : '\x7d' ∉ I1)
    (hRem : litPre REM11 (I2 ++ END2 ++ B) = none) :
    hasMatchFinal c = false ∧ subFinal c = c ∧ (runFinal c).written = none ∧
    (runFinal c).outcome = FinalOutcome.patternNotFound (snippet c) := by
  have hc' : c = A ++ (SA ++ (G ++ (KEY ++ (I1 ++ ('\x7d' :: (I2 ++ (END2 ++ B))))))) := by
    rw [hc]; simp [List.append_assoc]
  have hcomp : ∀ j,
      matchCompFinal ((G ++ (KEY ++ (I1 ++ ('\x7d' :: (I2 ++ (END2 ++ B)))))).drop j) = none := by
    intro j
    by_cases hjG : j = G.length
    · subst hjG
      rw [List.drop_left]
      unfold matchCompFinal
      rw [litPre_append]
      exact interiorFinal_spanFail I1 (I2 ++ (END2 ++ B)) hI1
        (by simpa [List.append_assoc] using hRem)
    · by_cases hjlen : j < (G ++ (KEY ++ (I1 ++ ('\x7d' :: (I2 ++ (END2 ++ B)))))).length
      · apply matchCompFinal_noKEY
        have hidx : c.drop (A.length + (SA.length + j)) =
            (G ++ (KEY ++ (I1 ++ ('\x7d' :: (I2 ++ (END2 ++ B)))))).drop j := by
          rw [hc', drop_append_add, drop_append_add]
        rw [← hidx]
        apply hKEY
        · have hlen1 : c.length =
              A.length + (SA.length +
                (G ++ (KEY ++ (I1 ++ ('\x7d' :: (I2 ++ (END2 ++ B)))))).length) := by
            rw [hc']
            simp [List.length_append]
          omega
        · omega
      · rw [List.drop_eq_nil_of_le (by omega)]
        exact matchCompFinal_nil
  have hmain : ∀ i, matchAt matchCompFinal (c.drop i) = none := by
    intro i
    by_cases hlen : i < c.length
    · by_cases hiA : i = A.length
      · subst hiA
        have hdrop : c.drop A.length =
            SA ++ (G ++ (KEY ++ (I1 ++ ('\x7d' :: (I2 ++ (END2 ++ B)))))) := by
          rw [hc', List.drop_left]
        rw [hdrop]
        exact matchAt_noComp _ _ (findComp_fail _ _ hcomp)
      · exact matchAt_noSA _ _ (hSA i hlen hiA)
    · rw [List.drop_eq_nil_of_le (by omega)]
      exact matchAt_nil _
  have hM : hasMatchFinal c = false := hasMatchF_false matchCompFinal c hmain
  have hid : subFinal c = c := subF_of_noMatch matchCompFinal replacementFinal c.length c hM
  refine ⟨hM, hid, by simp [runFinal, hid], by simp [runFinal, hid]⟩

/-- Witness for C10 at concrete nested-brace content. -/
theorem ezcto_C10_witness :
    hasMatchFinal c10w = false ∧ subFinal c10w = c10w ∧
    (runFinal c10w).written = none ∧
    (runFinal c10w).outcome = FinalOutcome.patternNotFound (snippet c10w) :=
  ezcto_C10 (("pre ").data) (("\n").data) ((" \"w\": \x7b\"b\": 1").data)
    (("\x7d\n").data) ((" end").data) c10w rfl (by decide) (by decide) (by decide)
    (by decide)

